import Mathlib

/-!
Verification of `scripts/performance_monitor.py`.

The extraction engine (`PerformanceMonitor.parse_performance_output`), the
trend analyzer (`generate_trend_analysis` with its inner `calc_trend`), and
the persistence pair (`save_metrics` / `load_metrics_history`) are embedded
as pure Lean functions.  Python strings are modelled as `List Char`; Python
floats are modelled as `ℚ` (the program only ever parses finite decimal
literals and compares / averages them, which `ℚ` reproduces exactly);
Python ints as `ℤ`.  Statements that raise and catch `ValueError` /
`IndexError` are modelled with `Option` and explicit early exits.
-/

unseal Rat.mul Rat.inv Rat.add Rat.sub Rat.ofScientific

/-- Whitespace set used by Python's `str.strip()` / `str.split()` for the
ASCII range (Unicode whitespace beyond these does not occur in the inputs
modelled here). -/
def isWs (c : Char) : Bool :=
  c = ' ' || c = '\t' || c = '\n' || c = '\r' || c = '\x0b' || c = '\x0c'

/-- Embeds Python `str.strip()`: remove leading and trailing whitespace. -/
def stripWs (l : List Char) : List Char :=
  ((l.dropWhile isWs).reverse.dropWhile isWs).reverse

/-- Worker for `pySplit`; `acc` holds the (reversed) current word. -/
def splitWsCore : List Char → List Char → List (List Char)
  | [], acc => if acc.isEmpty then [] else [acc.reverse]
  | c :: cs, acc =>
    if isWs c then
      if acc.isEmpty then splitWsCore cs [] else acc.reverse :: splitWsCore cs []
    else
      splitWsCore cs (c :: acc)

/-- Embeds Python `str.split()` with no argument: split on runs of
whitespace, discarding empty words. -/
def pySplit (l : List Char) : List (List Char) :=
  splitWsCore l []

/-- Embeds Python `text.split('\n')`: split on newline characters, keeping
empty segments (so the empty text yields one empty line). -/
def splitLines : List Char → List (List Char)
  | [] => [[]]
  | c :: cs =>
    if c = '\n' then [] :: splitLines cs
    else
      match splitLines cs with
      | w :: ws => (c :: w) :: ws
      | [] => [[c]]

/-- Boolean contiguous-substring test: does `needle` occur inside `hay`? -/
def infixCheck (needle : List Char) : List Char → Bool
  | [] => needle.isEmpty
  | c :: t => needle.isPrefixOf (c :: t) || infixCheck needle t

/-- Embeds Python `needle in hay` on strings (substring containment). -/
def pyContains (hay : List Char) (needle : String) : Bool :=
  infixCheck needle.data hay

/-- The characters of `hay` after the first occurrence of `sep`
(`none` when `sep` does not occur).  `hay.split(sep)[1]` in Python is
`beforeFirst sep <$> afterFirst sep hay`; the `none` case is the
`IndexError` raised by the `[1]` access. -/
def afterFirst (sep : List Char) : List Char → Option (List Char)
  | [] => if sep.isEmpty then some [] else none
  | c :: cs =>
    if sep.isPrefixOf (c :: cs) then some ((c :: cs).drop sep.length)
    else afterFirst sep cs

/-- The characters of `hay` before the first occurrence of `sep` (all of
`hay` when `sep` does not occur); this is Python `hay.split(sep)[0]`. -/
def beforeFirst (sep : List Char) : List Char → List Char
  | [] => []
  | c :: cs =>
    if sep.isPrefixOf (c :: cs) then []
    else c :: beforeFirst sep cs

/-- Embeds Python `s.replace(ab, '')` for a two-character pattern `ab`
(the source only ever removes `"ms"` and `"MB"`): delete non-overlapping
occurrences left to right. -/
def removePair (a b : Char) : List Char → List Char
  | [] => []
  | [c] => [c]
  | c :: d :: cs =>
    if c = a ∧ d = b then removePair a b cs
    else c :: removePair a b (d :: cs)

/-- Embeds Python `s.replace(ch, '')` for a single character (the source
removes `"%"` this way). -/
def removeChar (a : Char) : List Char → List Char
  | [] => []
  | c :: cs => if c = a then removeChar a cs else c :: removeChar a cs

/-- Embeds Python `str.lower()` (the source only tests for the ASCII word
`"success"`, for which `Char.toLower` agrees with Python). -/
def pyLower (l : List Char) : List Char :=
  l.map Char.toLower

/-- Numeric value of a digit string (most significant first). -/
def digitsToNat (l : List Char) : ℕ :=
  l.foldl (fun a c => 10 * a + (c.toNat - 48)) 0

/-- Consume an optional leading sign, returning `1` or `-1`. -/
def signSplit : List Char → ℤ × List Char
  | '+' :: cs => (1, cs)
  | '-' :: cs => (-1, cs)
  | cs => (1, cs)

/-- Exponent part of a float literal: the characters after `e`/`E` must be
an optionally signed nonempty digit string. -/
def expTail (sg : ℤ) (m : ℚ) (cs : List Char) : Option ℚ :=
  let (esg, cs1) := signSplit cs
  let ds := cs1.takeWhile Char.isDigit
  let rest := cs1.dropWhile Char.isDigit
  if ds.isEmpty || !rest.isEmpty then none
  else some ((sg : ℚ) * m * (10 : ℚ) ^ (esg * (digitsToNat ds : ℤ)))

/-- What may follow the mantissa of a float literal: nothing, or an
exponent introduced by `e`/`E`. -/
def mantissaTail (sg : ℤ) (m : ℚ) : List Char → Option ℚ
  | [] => some ((sg : ℚ) * m)
  | 'e' :: cs => expTail sg m cs
  | 'E' :: cs => expTail sg m cs
  | _ => none

/-- Embeds Python `float(s)` on finite decimal literals: optional
surrounding whitespace, optional sign, digits with an optional fractional
part (at least one digit overall), optional decimal exponent.  `inf`,
`nan` and underscore separators are not modelled (they never appear in
the outputs the monitor parses); such strings map to `none`, the
`ValueError` case. -/
def pyFloat (l : List Char) : Option ℚ :=
  let cs0 := stripWs l
  let (sg, cs1) := signSplit cs0
  let ip := cs1.takeWhile Char.isDigit
  let cs2 := cs1.dropWhile Char.isDigit
  match cs2 with
  | '.' :: cs3 =>
    let fp := cs3.takeWhile Char.isDigit
    let cs4 := cs3.dropWhile Char.isDigit
    if ip.isEmpty && fp.isEmpty then none
    else mantissaTail sg ((digitsToNat ip : ℚ) + (digitsToNat fp : ℚ) / 10 ^ fp.length) cs4
  | _ =>
    if ip.isEmpty then none
    else mantissaTail sg (digitsToNat ip : ℚ) cs2

/-- Embeds Python `int(s)`: optional surrounding whitespace, optional
sign, nonempty digit string (underscore separators not modelled).
`none` is the `ValueError` case. -/
def pyInt (l : List Char) : Option ℤ :=
  let cs0 := stripWs l
  let (sg, cs1) := signSplit cs0
  if cs1.isEmpty || !cs1.all Char.isDigit then none
  else some (sg * (digitsToNat cs1 : ℤ))

/-- One Metric Record, the dictionary built by
`parse_performance_output` (float fields as `ℚ`, int fields as `ℤ`). -/
@[ext]
structure Metrics where
  timestamp : String
  throughput : ℚ
  latency_avg : ℚ
  latency_p95 : ℚ
  memory_usage : ℚ
  cache_hit_ratio : ℚ
  success_rate : ℚ
  tests_passed : ℤ
  tests_total : ℤ
deriving DecidableEq, Repr

/-- The freshly initialised record: `timestamp` is `datetime.now()`
(passed in as a parameter `now`), every numeric field defaults to zero. -/
def initMetrics (now : String) : Metrics :=
  { timestamp := now, throughput := 0, latency_avg := 0, latency_p95 := 0,
    memory_usage := 0, cache_hit_ratio := 0, success_rate := 0,
    tests_passed := 0, tests_total := 0 }

/-- The throughput token loop
(`for i, part in enumerate(parts): if 'ops/sec' in part and i > 0: ...`).
`prev` is `parts[i-1]` (`none` while `i = 0`).  A failed `float` raises
`ValueError`, caught outside the loop: the scan stops and the updates
made so far are kept. -/
def throughputScan (cur : ℚ) : Option (List Char) → List (List Char) → ℚ
  | _, [] => cur
  | none, p :: rest => throughputScan cur (some p) rest
  | some prev, p :: rest =>
    if pyContains p "ops/sec" then
      match pyFloat prev with
      | some v => throughputScan (max cur v) (some p) rest
      | none => cur
    else throughputScan cur (some p) rest

/-- The `# Extract throughput` block acting on one stripped line. -/
def thrUpdate (cur : ℚ) (line : List Char) : ℚ :=
  if pyContains line "ops/sec" then throughputScan cur none (pySplit line) else cur

/-- The `# Extract latency` block acting on one stripped line:
`line.split('avg=')[1].split(',')[0]`, then the segment must itself
contain `ms`, all `ms` groups are removed and the rest parsed as a float.
Any `ValueError`/`IndexError` leaves the previous value. -/
def latUpdate (cur : ℚ) (line : List Char) : ℚ :=
  if pyContains line "avg=" && pyContains line "ms" then
    match afterFirst "avg=".data line with
    | none => cur
    | some tail =>
      let avg_part := beforeFirst ",".data (beforeFirst "avg=".data tail)
      if pyContains avg_part "ms" then
        match pyFloat (removePair 'm' 's' avg_part) with
        | some v => v
        | none => cur
      else cur
  else cur

/-- The memory token loop: every token containing `MB` is parsed (after
removing the `MB` groups) and max-accumulated; a failed parse raises
`ValueError`, caught outside the loop, keeping the updates made so far. -/
def memoryScan (cur : ℚ) : List (List Char) → ℚ
  | [] => cur
  | p :: rest =>
    if pyContains p "MB" then
      match pyFloat (removePair 'M' 'B' p) with
      | some v => memoryScan (max cur v) rest
      | none => cur
    else memoryScan cur rest

/-- The `# Extract memory usage` block acting on one stripped line. -/
def memUpdate (cur : ℚ) (line : List Char) : ℚ :=
  if pyContains line "Memory:" && pyContains line "MB" then memoryScan cur (pySplit line)
  else cur

/-- The `# Extract cache hit ratio` block acting on one stripped line:
`line.split('hit_ratio=')[1].split('%')[0]` parsed as a float (the `[1]`
access raises `IndexError` when `hit_ratio=` is absent). -/
def cacheUpdate (cur : ℚ) (line : List Char) : ℚ :=
  if pyContains line "Cache:" && pyContains line "%" then
    match afterFirst "hit_ratio=".data line with
    | none => cur
    | some tail =>
      match pyFloat (beforeFirst "%".data (beforeFirst "hit_ratio=".data tail)) with
      | some v => v
      | none => cur
  else cur

/-- The success-rate token loop: the first token containing `%` is parsed
(after removing `%`) and the loop breaks; a failed parse raises
`ValueError`, caught outside the loop, keeping the previous value. -/
def successScan (line : List Char) (cur : ℚ) : List (List Char) → ℚ
  | [] => cur
  | p :: rest =>
    if pyContains p "%" && pyContains (pyLower line) "success" then
      match pyFloat (removeChar '%' p) with
      | some v => v
      | none => cur
    else successScan line cur rest

/-- The `# Extract success rate` block acting on one stripped line. -/
def successUpdate (cur : ℚ) (line : List Char) : ℚ :=
  if pyContains (pyLower line) "success" && pyContains line "%" then
    successScan line cur (pySplit line)
  else cur

/-- The `Passing Tests:` block: `int(line.split(':')[1].strip())`. -/
def passedUpdate (cur : ℤ) (line : List Char) : ℤ :=
  if pyContains line "Passing Tests:" then
    match afterFirst ":".data line with
    | none => cur
    | some tail =>
      match pyInt (stripWs (beforeFirst ":".data tail)) with
      | some v => v
      | none => cur
  else cur

/-- The `Total Tests:` block: `int(line.split(':')[1].strip())`. -/
def totalUpdate (cur : ℤ) (line : List Char) : ℤ :=
  if pyContains line "Total Tests:" then
    match afterFirst ":".data line with
    | none => cur
    | some tail =>
      match pyInt (stripWs (beforeFirst ":".data tail)) with
      | some v => v
      | none => cur
  else cur

/-- The body of the `for line in lines` loop of
`parse_performance_output`: strip the line, then run the seven
field-extraction blocks (each block only reads and writes its own
field, so the blocks are recorded as simultaneous field updates). -/
def processLine (m : Metrics) (rawLine : List Char) : Metrics :=
  let line := stripWs rawLine
  { m with
    throughput := thrUpdate m.throughput line
    latency_avg := latUpdate m.latency_avg line
    memory_usage := memUpdate m.memory_usage line
    cache_hit_ratio := cacheUpdate m.cache_hit_ratio line
    success_rate := successUpdate m.success_rate line
    tests_passed := passedUpdate m.tests_passed line
    tests_total := totalUpdate m.tests_total line }

/-- Embeds `PerformanceMonitor.parse_performance_output`: initialise the
record (with `timestamp` = the wall clock `now`), split the output into
lines and fold the per-line extraction over them. -/
def parse_performance_output (now : String) (output : String) : Metrics :=
  (splitLines output.data).foldl processLine (initMetrics now)

/-- The mean of a metric field over a window,
`sum(m[metric_name] for m in w) / len(w)` in `calc_trend`. -/
def avgOf (f : Metrics → ℚ) (l : List Metrics) : ℚ :=
  (l.map f).sum / (l.length : ℚ)

/-- The `recent` window of `generate_trend_analysis`:
`self.metrics_history[-5:]`, the last five records. -/
def recentOf (h : List Metrics) : List Metrics :=
  h.drop (h.length - 5)

/-- The `older` window of `generate_trend_analysis`:
`self.metrics_history[-10:-5]` when the history has at least ten
records, otherwise `self.metrics_history[:-5]`. -/
def olderOf (h : List Metrics) : List Metrics :=
  if 10 ≤ h.length then (h.take (h.length - 5)).drop (h.length - 10)
  else h.take (h.length - 5)

/-- Embeds the inner function `calc_trend`: the percentage change between
the window means and the direction glyph printed next to it
("↑" above +5%, "↓" below -5%, "→" inside the ±5% band, "N/A" when the
older mean is zero — that case returns before any division happens). -/
def calc_trend (recent older : List Metrics) (f : Metrics → ℚ) : ℚ × String :=
  let recent_avg := avgOf f recent
  let older_avg := avgOf f older
  if older_avg = 0 then (0, "N/A")
  else
    let change := (recent_avg - older_avg) / older_avg * 100
    (change, if change > 5 then "↑" else if change < -5 then "↓" else "→")

/-- The fixed metric set `metrics_to_analyze` (field accessors, in the
order the source lists them). -/
def metrics_to_analyze : List (Metrics → ℚ) :=
  [Metrics.throughput, Metrics.latency_avg, Metrics.memory_usage,
   Metrics.cache_hit_ratio, Metrics.success_rate]

/-- Embeds `generate_trend_analysis`: `none` models the early returns
("Not enough data for trend analysis" when the history has fewer than two
records, "Not enough historical data" when the older window is empty);
otherwise one `(change, trend)` pair is produced per metric in
`metrics_to_analyze`, in order. -/
def generate_trend_analysis (h : List Metrics) : Option (List (ℚ × String)) :=
  if h.length < 2 then none
  else
    let recent := recentOf h
    let older := olderOf h
    if older.isEmpty then none
    else some (metrics_to_analyze.map (fun f => calc_trend recent older f))

/-- JSON values as Python's `json` module produces and consumes them
(`json.dump` / `json.load` are mutually inverse between this value space
and the file text; the file text itself is treated as an opaque blob). -/
inductive JsonVal where
  | jnull : JsonVal
  | jbool : Bool → JsonVal
  | jstr : String → JsonVal
  | jint : ℤ → JsonVal
  | jfloat : ℚ → JsonVal
  | jarr : List JsonVal → JsonVal
  | jobj : List (String × JsonVal) → JsonVal

/-- Key lookup in a JSON object, first binding wins (Python dicts have
unique keys, so this is plain dict access). -/
def jlookup (fields : List (String × JsonVal)) (k : String) : Option JsonVal :=
  match fields with
  | [] => none
  | (k2, v) :: rest => if k2 = k then some v else jlookup rest k

/-- The JSON object `json.dump` writes for one metrics dictionary. -/
def metrics_to_json (m : Metrics) : JsonVal :=
  .jobj [("timestamp", .jstr m.timestamp),
         ("throughput", .jfloat m.throughput),
         ("latency_avg", .jfloat m.latency_avg),
         ("latency_p95", .jfloat m.latency_p95),
         ("memory_usage", .jfloat m.memory_usage),
         ("cache_hit_ratio", .jfloat m.cache_hit_ratio),
         ("success_rate", .jfloat m.success_rate),
         ("tests_passed", .jint m.tests_passed),
         ("tests_total", .jint m.tests_total)]

/-- Reading one loaded JSON object back as a Metric Record, field by
field (the typed view of the dictionaries the rest of the program
indexes by these same keys). -/
def metrics_from_json (j : JsonVal) : Option Metrics :=
  match j with
  | .jobj fields =>
    match jlookup fields "timestamp", jlookup fields "throughput",
          jlookup fields "latency_avg", jlookup fields "latency_p95",
          jlookup fields "memory_usage", jlookup fields "cache_hit_ratio",
          jlookup fields "success_rate", jlookup fields "tests_passed",
          jlookup fields "tests_total" with
    | some (.jstr ts), some (.jfloat th), some (.jfloat la),
      some (.jfloat lp), some (.jfloat mu), some (.jfloat ch),
      some (.jfloat sr), some (.jint tp), some (.jint tt) =>
      some ⟨ts, th, la, lp, mu, ch, sr, tp, tt⟩
    | _, _, _, _, _, _, _, _, _ => none
  | _ => none

/-- The JSON array `save_metrics` writes to `metrics_history.json`. -/
def history_to_json (h : List Metrics) : JsonVal :=
  .jarr (h.map metrics_to_json)

/-- Reading a list of loaded JSON objects back as Metric Records, all of
which must decode. -/
def decodeRecords : List JsonVal → Option (List Metrics)
  | [] => some []
  | e :: rest =>
    match metrics_from_json e, decodeRecords rest with
    | some m, some ms => some (m :: ms)
    | _, _ => none

/-- Reading a loaded history file back as the ordered record sequence. -/
def history_from_json (j : JsonVal) : Option (List Metrics) :=
  match j with
  | .jarr es => decodeRecords es
  | _ => none

/-- Embeds `save_metrics`: append the new record to the in-memory
history, then rewrite `metrics_history.json` with the full history and
`latest_metrics.json` with the new record.  Returns (new in-memory
history, history file content, latest file content). -/
def save_metrics (history : List Metrics) (m : Metrics) :
    List Metrics × JsonVal × JsonVal :=
  (history ++ [m], history_to_json (history ++ [m]), metrics_to_json m)

/-- Embeds `load_metrics_history`: when the history file exists its JSON
content becomes the in-memory history verbatim (the source assigns
`json.load`'s result without validation); a missing file leaves the
initial empty history. -/
def load_metrics_history (file : Option JsonVal) : JsonVal :=
  match file with
  | some j => j
  | none => .jarr []

/-- A record whose only nonzero numeric field is `throughput`; used as a
concrete history entry in witnesses and counterexamples. -/
def sampleRec (t : ℚ) : Metrics :=
  { initMetrics "t" with throughput := t }

/-- A 12-record history: seven records at throughput 100 followed by five
at 200, so the recent window averages 200 and the older window 100. -/
def sampleHistory12 : List Metrics :=
  List.replicate 7 (sampleRec 100) ++ List.replicate 5 (sampleRec 200)

/-- A 6-record history whose older window is the single zero-throughput
record in front. -/
def zeroBaseHistory : List Metrics :=
  sampleRec 0 :: List.replicate 5 (sampleRec 7)

/-- Strip a final two-character suffix `ab` if present, as the phrase
"with the suffix stripped" in the specification reads. -/
def stripSuffix2 (a b : Char) (p : List Char) : List Char :=
  if [a, b].isSuffixOf p then p.take (p.length - 2) else p

/-- Transcribes the specification's throughput rule: on one line, the
float values of the tokens immediately preceding a token that contains
`ops/sec` and has at least one token before it (tokens whose predecessor
is not a float literal contribute nothing). -/
def lineOpsVals (line : List Char) : List ℚ :=
  let parts := pySplit line
  (parts.zip parts.tail).filterMap
    (fun pr => if pyContains pr.2 "ops/sec" then pyFloat pr.1 else none)

/-- Transcribes the specification's throughput resolution rule: the
maximum of all per-token values over all lines, `0` when nothing
matches. -/
def claimThroughput (output : String) : ℚ :=
  (splitLines output.data).foldl (fun a l => (lineOpsVals (stripWs l)).foldl max a) 0

/-- A line scans cleanly for throughput when every `ops/sec` token with a
predecessor has a float-parseable predecessor, so the `ValueError` exit
of the token loop is never taken. -/
def cleanThroughputLine (line : List Char) : Bool :=
  let parts := pySplit line
  (parts.zip parts.tail).all
    (fun pr => !(pyContains pr.2 "ops/sec") || (pyFloat pr.1).isSome)

/-- The latency value one line yields in the source: the comma-delimited
segment after `avg=` must itself contain `ms`; all `ms` groups are
removed and the rest parsed as a float (`none` when the line yields
nothing). -/
def latencyCandidate (line : List Char) : Option ℚ :=
  if pyContains line "avg=" && pyContains line "ms" then
    match afterFirst "avg=".data line with
    | none => none
    | some tail =>
      let avg_part := beforeFirst ",".data (beforeFirst "avg=".data tail)
      if pyContains avg_part "ms" then pyFloat (removePair 'm' 's' avg_part)
      else none
  else none

/-- Last-successful-line-wins accumulation of the latency candidates. -/
def specLatencyAvg (output : String) : ℚ :=
  (splitLines output.data).foldl (fun a l => (latencyCandidate (stripWs l)).getD a) 0

/-- Transcribes the specification's latency rule verbatim: on any line
containing both `avg=` and `ms`, take the substring between `avg=` and
the next comma, strip an `ms` suffix, and parse it as a float. -/
def claimLatencyVal (line : List Char) : Option ℚ :=
  if pyContains line "avg=" && pyContains line "ms" then
    (afterFirst "avg=".data line).bind
      (fun tail => pyFloat (stripSuffix2 'm' 's' (beforeFirst ",".data tail)))
  else none

/-- The memory values one line yields in the source: every token
containing `MB`, with the `MB` groups removed, parsed as a float. -/
def lineMBVals (line : List Char) : List ℚ :=
  (pySplit line).filterMap
    (fun p => if pyContains p "MB" then pyFloat (removePair 'M' 'B' p) else none)

/-- Max-accumulation of all per-token memory values over all matching
lines, `0` when nothing matches. -/
def specMemoryAll (output : String) : ℚ :=
  (splitLines output.data).foldl
    (fun a l =>
      let line := stripWs l
      if pyContains line "Memory:" && pyContains line "MB" then (lineMBVals line).foldl max a
      else a) 0

/-- A line scans cleanly for memory when every `MB` token parses after
the `MB` groups are removed, so the `ValueError` exit of the token loop
is never taken. -/
def cleanMemoryLine (line : List Char) : Bool :=
  (pySplit line).all
    (fun p => !(pyContains p "MB") || (pyFloat (removePair 'M' 'B' p)).isSome)

/-- Transcribes the specification's memory rule verbatim: on each line
containing `Memory:` and `MB`, the first whitespace token containing
`MB`, with the suffix stripped, is parsed as a float; the maximum such
per-line value is kept across lines. -/
def claimMemory (output : String) : ℚ :=
  (splitLines output.data).foldl
    (fun a l =>
      let line := stripWs l
      if pyContains line "Memory:" && pyContains line "MB" then
        match (pySplit line).find? (fun p => pyContains p "MB") with
        | some p =>
          match pyFloat (stripSuffix2 'M' 'B' p) with
          | some v => max a v
          | none => a
        | none => a
      else a) 0

/-- A stripped line triggers none of the seven extraction blocks: every
`if` guard of the loop body of `parse_performance_output` is false. -/
def noMarker (line : List Char) : Bool :=
  !(pyContains line "ops/sec") &&
  !(pyContains line "avg=" && pyContains line "ms") &&
  !(pyContains line "Memory:" && pyContains line "MB") &&
  !(pyContains line "Cache:" && pyContains line "%") &&
  !(pyContains (pyLower line) "success" && pyContains line "%") &&
  !(pyContains line "Passing Tests:") &&
  !(pyContains line "Total Tests:")

/-- A test-runner output in which every extraction block fires its guard
but every candidate number is malformed, so each `float`/`int` call
raises and every field keeps its default. -/
def malformedSample : String :=
  "junk ops/sec\navg=xyzms, q\nMemory: rrMB\nCache: hit_ratio=zz%\nsuccess: qq%\nPassing Tests: many\nTotal Tests: 7.5"

/-- The throughput block of one stripped line has a successful match:
the line passes the guard and some token containing `ops/sec` has a
float-parseable predecessor.  When this is false the block matched
nothing or every matched candidate was unparseable, and the field is
untouched. -/
def lineYieldsThroughput (line : List Char) : Bool :=
  pyContains line "ops/sec" &&
    (let parts := pySplit line
     (parts.zip parts.tail).any
       (fun pr => pyContains pr.2 "ops/sec" && (pyFloat pr.1).isSome))

/-- The latency block of one stripped line has a successful match. -/
def lineYieldsLatency (line : List Char) : Bool :=
  (latencyCandidate line).isSome

/-- The memory block of one stripped line has a successful match: the
line passes the guard and some `MB` token parses after removal. -/
def lineYieldsMemory (line : List Char) : Bool :=
  pyContains line "Memory:" && pyContains line "MB" &&
    (pySplit line).any
      (fun p => pyContains p "MB" && (pyFloat (removePair 'M' 'B' p)).isSome)

/-- The cache block of one stripped line has a successful match. -/
def lineYieldsCache (line : List Char) : Bool :=
  pyContains line "Cache:" && pyContains line "%" &&
    (match afterFirst "hit_ratio=".data line with
     | none => false
     | some tail =>
       (pyFloat (beforeFirst "%".data (beforeFirst "hit_ratio=".data tail))).isSome)

/-- The success-rate block of one stripped line has a successful match:
the line passes the guard and some `%` token parses after removal. -/
def lineYieldsSuccess (line : List Char) : Bool :=
  pyContains (pyLower line) "success" && pyContains line "%" &&
    (pySplit line).any
      (fun p => pyContains p "%" && pyContains (pyLower line) "success" &&
        (pyFloat (removeChar '%' p)).isSome)

/-- The `Passing Tests:` block of one stripped line has a successful
match. -/
def lineYieldsPassed (line : List Char) : Bool :=
  pyContains line "Passing Tests:" &&
    (match afterFirst ":".data line with
     | none => false
     | some tail => (pyInt (stripWs (beforeFirst ":".data tail))).isSome)

/-- The `Total Tests:` block of one stripped line has a successful
match. -/
def lineYieldsTotal (line : List Char) : Bool :=
  pyContains line "Total Tests:" &&
    (match afterFirst ":".data line with
     | none => false
     | some tail => (pyInt (stripWs (beforeFirst ":".data tail))).isSome)

/-! ### Basic lemmas about the string model -/

theorem infixCheck_iff (needle hay : List Char) :
    infixCheck needle hay = true ↔ needle <:+: hay := by
  induction hay with
  | nil => simp [infixCheck, List.infix_nil, List.isEmpty_iff]
  | cons c t ih =>
    simp [infixCheck, List.isPrefixOf_iff_prefix, ih, List.infix_cons_iff]

theorem splitWsCore_mem_infix (cs : List Char) :
    ∀ acc w, w ∈ splitWsCore cs acc → w <:+: (acc.reverse ++ cs) := by
  induction cs with
  | nil =>
    intro acc w hw
    simp only [splitWsCore] at hw
    split at hw
    · simp at hw
    · simp only [List.mem_singleton] at hw
      subst hw
      simp
  | cons c t ih =>
    intro acc w hw
    simp only [splitWsCore] at hw
    have hsplit : w ∈ splitWsCore t [] ∨ w = acc.reverse ∨ w ∈ splitWsCore t (c :: acc) := by
      split at hw
      · split at hw
        · exact Or.inl hw
        · rcases List.mem_cons.mp hw with h1 | h1
          · exact Or.inr (Or.inl h1)
          · exact Or.inl h1
      · exact Or.inr (Or.inr hw)
    rcases hsplit with h1 | h1 | h1
    · have h2 := ih [] w h1
      simp only [List.reverse_nil, List.nil_append] at h2
      exact h2.trans (((List.suffix_cons c t).trans (List.suffix_append acc.reverse (c :: t))).isInfix)
    · subst h1
      exact (List.prefix_append acc.reverse (c :: t)).isInfix
    · have h2 := ih (c :: acc) w h1
      simpa [List.append_assoc] using h2

theorem pyContains_of_token (line tok : List Char) (s : String)
    (htok : tok ∈ pySplit line) (hs : pyContains tok s = true) :
    pyContains line s = true := by
  rw [pyContains, infixCheck_iff] at hs ⊢
  have h2 : tok <:+: line := by
    simpa using splitWsCore_mem_infix line [] tok htok
  exact hs.trans h2

/-! ### Projection lemmas: the seven extraction blocks only touch their
own field, so the record fold factors into independent per-field folds -/

theorem foldl_timestamp (lines : List (List Char)) (m : Metrics) :
    (lines.foldl processLine m).timestamp = m.timestamp := by
  induction lines generalizing m with
  | nil => rfl
  | cons l ls ih => rw [List.foldl_cons, ih]; rfl

theorem foldl_throughput (lines : List (List Char)) (m : Metrics) :
    (lines.foldl processLine m).throughput =
      lines.foldl (fun a l => thrUpdate a (stripWs l)) m.throughput := by
  induction lines generalizing m with
  | nil => rfl
  | cons l ls ih => rw [List.foldl_cons, List.foldl_cons, ih]; rfl

theorem foldl_latency_avg (lines : List (List Char)) (m : Metrics) :
    (lines.foldl processLine m).latency_avg =
      lines.foldl (fun a l => latUpdate a (stripWs l)) m.latency_avg := by
  induction lines generalizing m with
  | nil => rfl
  | cons l ls ih => rw [List.foldl_cons, List.foldl_cons, ih]; rfl

theorem foldl_latency_p95 (lines : List (List Char)) (m : Metrics) :
    (lines.foldl processLine m).latency_p95 = m.latency_p95 := by
  induction lines generalizing m with
  | nil => rfl
  | cons l ls ih => rw [List.foldl_cons, ih]; rfl

theorem foldl_memory_usage (lines : List (List Char)) (m : Metrics) :
    (lines.foldl processLine m).memory_usage =
      lines.foldl (fun a l => memUpdate a (stripWs l)) m.memory_usage := by
  induction lines generalizing m with
  | nil => rfl
  | cons l ls ih => rw [List.foldl_cons, List.foldl_cons, ih]; rfl

theorem foldl_cache_hit_ratio (lines : List (List Char)) (m : Metrics) :
    (lines.foldl processLine m).cache_hit_ratio =
      lines.foldl (fun a l => cacheUpdate a (stripWs l)) m.cache_hit_ratio := by
  induction lines generalizing m with
  | nil => rfl
  | cons l ls ih => rw [List.foldl_cons, List.foldl_cons, ih]; rfl

theorem foldl_success_rate (lines : List (List Char)) (m : Metrics) :
    (lines.foldl processLine m).success_rate =
      lines.foldl (fun a l => successUpdate a (stripWs l)) m.success_rate := by
  induction lines generalizing m with
  | nil => rfl
  | cons l ls ih => rw [List.foldl_cons, List.foldl_cons, ih]; rfl

theorem foldl_tests_passed (lines : List (List Char)) (m : Metrics) :
    (lines.foldl processLine m).tests_passed =
      lines.foldl (fun a l => passedUpdate a (stripWs l)) m.tests_passed := by
  induction lines generalizing m with
  | nil => rfl
  | cons l ls ih => rw [List.foldl_cons, List.foldl_cons, ih]; rfl

theorem foldl_tests_total (lines : List (List Char)) (m : Metrics) :
    (lines.foldl processLine m).tests_total =
      lines.foldl (fun a l => totalUpdate a (stripWs l)) m.tests_total := by
  induction lines generalizing m with
  | nil => rfl
  | cons l ls ih => rw [List.foldl_cons, List.foldl_cons, ih]; rfl

/-! ### Claim C8 -/

/-- C8: for every input text, the extracted `latency_p95` equals `0.0` —
no extraction block of `parse_performance_output` ever assigns it, so it
keeps its default. -/
theorem latency_p95_always_zero (now output : String) :
    (parse_performance_output now output).latency_p95 = 0 := by
  rw [parse_performance_output, foldl_latency_p95]
  rfl

/-! ### Claim C10 -/

/-- C10: all fields of the extracted record other than `timestamp` are a
pure deterministic function of the text alone: two extraction runs on
the same text (here: with different wall clocks, the only varying input)
agree on every numeric field. -/
theorem parse_deterministic (n1 n2 output : String) :
    (parse_performance_output n1 output).throughput =
      (parse_performance_output n2 output).throughput ∧
    (parse_performance_output n1 output).latency_avg =
      (parse_performance_output n2 output).latency_avg ∧
    (parse_performance_output n1 output).latency_p95 =
      (parse_performance_output n2 output).latency_p95 ∧
    (parse_performance_output n1 output).memory_usage =
      (parse_performance_output n2 output).memory_usage ∧
    (parse_performance_output n1 output).cache_hit_ratio =
      (parse_performance_output n2 output).cache_hit_ratio ∧
    (parse_performance_output n1 output).success_rate =
      (parse_performance_output n2 output).success_rate ∧
    (parse_performance_output n1 output).tests_passed =
      (parse_performance_output n2 output).tests_passed ∧
    (parse_performance_output n1 output).tests_total =
      (parse_performance_output n2 output).tests_total := by
  refine ⟨?_, ?_, ?_, ?_, ?_, ?_, ?_, ?_⟩ <;>
    simp only [parse_performance_output, foldl_throughput, foldl_latency_avg,
      foldl_latency_p95, foldl_memory_usage, foldl_cache_hit_ratio,
      foldl_success_rate, foldl_tests_passed, foldl_tests_total, initMetrics]

/-! ### Claim C9 -/

theorem metrics_roundtrip (m : Metrics) :
    metrics_from_json (metrics_to_json m) = some m := rfl

theorem decodeRecords_roundtrip (h : List Metrics) :
    decodeRecords (h.map metrics_to_json) = some h := by
  induction h with
  | nil => rfl
  | cons m hs ih => simp [decodeRecords, metrics_roundtrip, ih]

/-- C9: persisting a history (`save_metrics` appends the record and
serialises the full history to the history file) and reloading the file
(`load_metrics_history`) reproduces the identical ordered record
sequence, field for field. -/
theorem save_load_roundtrip (h : List Metrics) (m : Metrics) :
    (save_metrics h m).1 = h ++ [m] ∧
    history_from_json (load_metrics_history (some (save_metrics h m).2.1)) =
      some (h ++ [m]) := by
  refine ⟨rfl, ?_⟩
  show history_from_json (history_to_json (h ++ [m])) = some (h ++ [m])
  exact decodeRecords_roundtrip (h ++ [m])

/-! ### Claim C6 -/

/-- C6: whenever the older window's mean is zero, `calc_trend` returns
change `0` with direction `"N/A"` ("not applicable") through its early
exit — the division by `older_avg` is never reached. -/
theorem trend_zero_baseline (h : List Metrics) (f : Metrics → ℚ)
    (h0 : avgOf f (olderOf h) = 0) :
    calc_trend (recentOf h) (olderOf h) f = (0, "N/A") := by
  simp [calc_trend, h0]

theorem trend_zero_baseline_witness :
    calc_trend (recentOf zeroBaseHistory) (olderOf zeroBaseHistory)
      Metrics.throughput = (0, "N/A") :=
  trend_zero_baseline zeroBaseHistory Metrics.throughput (by decide)

/-! ### Claim C2 -/

/-- C2: for a 12-record history whose last five throughput values average
200 while the `[-10:-5]` window averages 100, trend analysis reports a
+100.0% change for throughput with the up direction (the "↑" glyph,
printed because the change exceeds the +5 threshold); throughput is the
first entry of the analysis. -/
theorem trend_throughput_up (h : List Metrics) (hlen : h.length = 12)
    (hr : avgOf Metrics.throughput (recentOf h) = 200)
    (ho : avgOf Metrics.throughput (olderOf h) = 100) :
    ∃ res, generate_trend_analysis h = some res ∧ res.head? = some (100, "↑") := by
  have h2 : ¬ h.length < 2 := by omega
  have hlen5 : (olderOf h).length = 5 := by
    rw [olderOf, if_pos (by omega)]
    simp only [List.length_drop, List.length_take]
    omega
  have hne : (olderOf h).isEmpty = false := by
    cases hE : (olderOf h).isEmpty
    · rfl
    · rw [List.isEmpty_iff] at hE
      rw [hE] at hlen5
      simp at hlen5
  refine ⟨metrics_to_analyze.map (fun f => calc_trend (recentOf h) (olderOf h) f), ?_, ?_⟩
  · simp only [generate_trend_analysis]
    rw [if_neg h2, hne]
    simp
  · simp only [metrics_to_analyze, List.map_cons, List.head?_cons, Option.some.injEq]
    simp only [calc_trend, hr, ho]
    norm_num

theorem trend_throughput_up_witness :
    ∃ res, generate_trend_analysis sampleHistory12 = some res ∧
      res.head? = some (100, "↑") :=
  trend_throughput_up sampleHistory12 (by decide) (by decide) (by decide)

/-! ### Claim C5 -/

/-- C5 counterexample: a history of length 2 satisfies the claim's
"length at least 2" premise, yet `generate_trend_analysis` computes no
per-metric result at all — its older window `[:-5]` is empty, so it
takes the "Not enough historical data" early return. -/
theorem trend_len2_cex :
    2 ≤ ([sampleRec 1, sampleRec 2] : List Metrics).length ∧
    generate_trend_analysis [sampleRec 1, sampleRec 2] = none := by
  exact ⟨by decide, by decide⟩

/-- C5 (amended): for a history whose older window is nonempty — that
is, of length at least 6 — trend analysis produces exactly one Trend
Result per metric of the fixed five-metric set. -/
theorem trend_five_results (h : List Metrics) (hlen : 6 ≤ h.length) :
    ∃ res, generate_trend_analysis h = some res ∧ res.length = 5 := by
  have h2 : ¬ h.length < 2 := by omega
  have hpos : 0 < (olderOf h).length := by
    rw [olderOf]
    by_cases h10 : 10 ≤ h.length
    · rw [if_pos h10]
      simp only [List.length_drop, List.length_take]
      omega
    · rw [if_neg h10]
      simp only [List.length_take]
      omega
  have hne : (olderOf h).isEmpty = false := by
    cases hE : (olderOf h).isEmpty
    · rfl
    · rw [List.isEmpty_iff] at hE
      rw [hE] at hpos
      simp at hpos
  refine ⟨metrics_to_analyze.map (fun f => calc_trend (recentOf h) (olderOf h) f), ?_, ?_⟩
  · simp only [generate_trend_analysis]
    rw [if_neg h2, hne]
    simp
  · simp [metrics_to_analyze]

theorem trend_five_results_witness :
    ∃ res, generate_trend_analysis (List.replicate 6 (sampleRec 1)) = some res ∧
      res.length = 5 :=
  trend_five_results (List.replicate 6 (sampleRec 1)) (by decide)

/-! ### Claim C7 -/

theorem processLine_id (m : Metrics) (l : List Char)
    (h : noMarker (stripWs l) = true) : processLine m l = m := by
  simp only [noMarker, Bool.and_eq_true, Bool.not_eq_true'] at h
  obtain ⟨⟨⟨⟨⟨⟨h1, h2⟩, h3⟩, h4⟩, h5⟩, h6⟩, h7⟩ := h
  apply Metrics.ext
  · rfl
  · show thrUpdate m.throughput (stripWs l) = m.throughput
    simp [thrUpdate, h1]
  · show latUpdate m.latency_avg (stripWs l) = m.latency_avg
    simp [latUpdate, h2]
  · rfl
  · show memUpdate m.memory_usage (stripWs l) = m.memory_usage
    simp [memUpdate, h3]
  · show cacheUpdate m.cache_hit_ratio (stripWs l) = m.cache_hit_ratio
    simp [cacheUpdate, h4]
  · show successUpdate m.success_rate (stripWs l) = m.success_rate
    simp [successUpdate, h5]
  · show passedUpdate m.tests_passed (stripWs l) = m.tests_passed
    simp [passedUpdate, h6]
  · show totalUpdate m.tests_total (stripWs l) = m.tests_total
    simp [totalUpdate, h7]

theorem foldl_processLine_id (lines : List (List Char)) (m : Metrics)
    (h : ∀ l ∈ lines, noMarker (stripWs l) = true) :
    lines.foldl processLine m = m := by
  induction lines generalizing m with
  | nil => rfl
  | cons l ls ih =>
    rw [List.foldl_cons, processLine_id m l (h l (by simp))]
    exact ih m (fun l2 hl2 => h l2 (by simp [hl2]))

/- The theorem for claim C7 needs lemmas about the latency block proved
in the Claim C3 section; it appears at the end of the file. -/

/-! ### Claim C3 -/

theorem latSegment_getD (cur : ℚ) (seg : List Char) :
    (if pyContains seg "ms" then
       match pyFloat (removePair 'm' 's' seg) with
       | some v => v
       | none => cur
     else cur) =
    (if pyContains seg "ms" then pyFloat (removePair 'm' 's' seg) else none).getD cur := by
  cases h : pyContains seg "ms"
  · simp
  · cases hv : pyFloat (removePair 'm' 's' seg) <;> simp [hv]

theorem latUpdate_eq (cur : ℚ) (line : List Char) :
    latUpdate cur line = (latencyCandidate line).getD cur := by
  simp only [latUpdate, latencyCandidate]
  cases hc : (pyContains line "avg=" && pyContains line "ms")
  · simp
  · cases afterFirst "avg=".data line with
    | none => simp
    | some tail =>
      simpa using latSegment_getD cur (beforeFirst ",".data (beforeFirst "avg=".data tail))

/-- C3 counterexample: on the single-line text `"avg=5, ms"` — a line
containing both `avg=` and `ms` whose claimed value (the substring
between `avg=` and the next comma, with an `ms` suffix stripped) parses
as `5.0` — the code extracts nothing: the comma-delimited segment `"5"`
does not itself contain `ms`, so `latency_avg` stays `0.0`, not `5.0`. -/
theorem latency_claim_cex :
    claimLatencyVal (stripWs ("avg=5, ms".data)) = some 5 ∧
    (parse_performance_output "t" "avg=5, ms").latency_avg = 0 ∧
    (parse_performance_output "t" "avg=5, ms").latency_avg ≠ 5 := by
  exact ⟨by decide, by decide, by decide⟩

/-- C3 (amended): the extracted `latency_avg` is the last-match-wins
accumulation, over the lines containing both `avg=` and `ms`, of the
float value of the comma-delimited segment after `avg=` — taken only
when that segment itself contains `ms`, with every `ms` group removed
before parsing (not only a suffix); lines whose segment fails this or
fails to parse keep the previous value. -/
theorem latency_last_match (now output : String) :
    (parse_performance_output now output).latency_avg = specLatencyAvg output := by
  rw [parse_performance_output, foldl_latency_avg, specLatencyAvg]
  have hgen : ∀ (lines : List (List Char)) (a : ℚ),
      lines.foldl (fun a l => latUpdate a (stripWs l)) a =
        lines.foldl (fun a l => (latencyCandidate (stripWs l)).getD a) a := by
    intro lines
    induction lines with
    | nil => intro a; rfl
    | cons l ls ih =>
      intro a
      rw [List.foldl_cons, List.foldl_cons, latUpdate_eq, ih]
  exact hgen (splitLines output.data) 0

/-! ### Claim C4 -/

theorem cleanMemoryLine_spec (line : List Char) (h : cleanMemoryLine line = true) :
    ∀ p ∈ pySplit line, pyContains p "MB" = true →
      (pyFloat (removePair 'M' 'B' p)).isSome = true := by
  intro p hp hmb
  have hall : ∀ x ∈ pySplit line,
      pyContains x "MB" = false ∨ (pyFloat (removePair 'M' 'B' x)).isSome = true := by
    simpa [cleanMemoryLine] using h
  rcases hall p hp with h3 | h3
  · rw [hmb] at h3
    cases h3
  · exact h3

theorem memoryScan_eq (parts : List (List Char)) :
    ∀ a : ℚ,
      (∀ p ∈ parts, pyContains p "MB" = true →
        (pyFloat (removePair 'M' 'B' p)).isSome = true) →
      memoryScan a parts =
        (parts.filterMap
          (fun p => if pyContains p "MB" then pyFloat (removePair 'M' 'B' p) else none)).foldl
          max a := by
  induction parts with
  | nil => intro a _; rfl
  | cons p rest ih =>
    intro a hcl
    cases hp : pyContains p "MB"
    · simp only [memoryScan, hp, Bool.false_eq_true, if_false, List.filterMap_cons]
      exact ih a (fun q hq hq2 => hcl q (List.mem_cons_of_mem p hq) hq2)
    · obtain ⟨v, hv⟩ := Option.isSome_iff_exists.mp (hcl p (List.mem_cons_self p rest) hp)
      simp only [memoryScan, hp, if_true, hv, List.filterMap_cons, List.foldl_cons]
      exact ih (max a v) (fun q hq hq2 => hcl q (List.mem_cons_of_mem p hq) hq2)

/-- C4 counterexample: on the single matching line `"Memory: 10MB 20MB"`
the claim's rule (first `MB` token per line) yields `10.0`, but the code
loops over every `MB` token with a running max and extracts `20.0`. -/
theorem memory_claim_cex :
    (parse_performance_output "t" "Memory: 10MB 20MB").memory_usage = 20 ∧
    claimMemory "Memory: 10MB 20MB" = 10 ∧
    (parse_performance_output "t" "Memory: 10MB 20MB").memory_usage ≠
      claimMemory "Memory: 10MB 20MB" := by
  exact ⟨by decide, by decide, by decide⟩

/-- C4 (amended): on each line containing `Memory:` and `MB`, every
whitespace token containing `MB` (not only the first) is parsed with its
`MB` groups removed and max-accumulated; `memory_usage` is the maximum
over all such tokens of all matching lines (`0.0` if none) — provided
every `MB` token of those matching lines parses, so the `ValueError`
abort of the token loop is never taken (lines without `Memory:` and `MB`
never enter the block and need no such condition). -/
theorem memory_max_of_clean (now output : String)
    (hclean : ∀ l ∈ splitLines output.data,
      (pyContains (stripWs l) "Memory:" && pyContains (stripWs l) "MB") = true →
      cleanMemoryLine (stripWs l) = true) :
    (parse_performance_output now output).memory_usage = specMemoryAll output := by
  rw [parse_performance_output, foldl_memory_usage, specMemoryAll]
  have hgen : ∀ (lines : List (List Char)) (a : ℚ),
      (∀ l ∈ lines,
        (pyContains (stripWs l) "Memory:" && pyContains (stripWs l) "MB") = true →
        cleanMemoryLine (stripWs l) = true) →
      lines.foldl (fun a l => memUpdate a (stripWs l)) a =
        lines.foldl
          (fun a l =>
            let line := stripWs l
            if pyContains line "Memory:" && pyContains line "MB" then
              (lineMBVals line).foldl max a
            else a) a := by
    intro lines
    induction lines with
    | nil => intro a _; rfl
    | cons l ls ih =>
      intro a hcl
      rw [List.foldl_cons, List.foldl_cons]
      have hline : memUpdate a (stripWs l) =
          (if pyContains (stripWs l) "Memory:" && pyContains (stripWs l) "MB" then
            (lineMBVals (stripWs l)).foldl max a
          else a) := by
        simp only [memUpdate, lineMBVals]
        cases hg : (pyContains (stripWs l) "Memory:" && pyContains (stripWs l) "MB")
        · simp
        · simp only [if_true]
          exact memoryScan_eq (pySplit (stripWs l)) a
            (cleanMemoryLine_spec (stripWs l) (hcl l (List.mem_cons_self l ls) hg))
      rw [hline]
      exact ih _ (fun l2 hl2 hg2 => hcl l2 (List.mem_cons_of_mem l hl2) hg2)
  exact hgen (splitLines output.data) 0 hclean

theorem memory_max_of_clean_witness :
    (parse_performance_output "t" "Memory: 256.0MB used").memory_usage =
      specMemoryAll "Memory: 256.0MB used" ∧
    specMemoryAll "Memory: 256.0MB used" = 256 :=
  ⟨memory_max_of_clean "t" "Memory: 256.0MB used" (by decide), by decide⟩

/-! ### Claim C1 -/

theorem cleanThroughputLine_spec (line : List Char) (h : cleanThroughputLine line = true) :
    ∀ pr ∈ (pySplit line).zip (pySplit line).tail,
      pyContains pr.2 "ops/sec" = true → (pyFloat pr.1).isSome = true := by
  intro pr hpr hc
  have hall : ∀ x ∈ (pySplit line).zip (pySplit line).tail,
      pyContains x.2 "ops/sec" = false ∨ (pyFloat x.1).isSome = true := by
    simpa [cleanThroughputLine] using h
  rcases hall pr hpr with h3 | h3
  · rw [hc] at h3
    cases h3
  · exact h3

theorem throughputScan_eq (parts : List (List Char)) :
    ∀ (q : List Char) (a : ℚ),
      (∀ pr ∈ (q :: parts).zip parts, pyContains pr.2 "ops/sec" = true →
        (pyFloat pr.1).isSome = true) →
      throughputScan a (some q) parts =
        (((q :: parts).zip parts).filterMap
          (fun pr => if pyContains pr.2 "ops/sec" then pyFloat pr.1 else none)).foldl
          max a := by
  induction parts with
  | nil => intro q a _; rfl
  | cons p rest ih =>
    intro q a hcl
    cases hp : pyContains p "ops/sec"
    · simp only [List.zip_cons_cons, throughputScan, hp, Bool.false_eq_true, if_false,
        List.filterMap_cons]
      exact ih p a (fun pr hpr h2 => hcl pr (List.mem_cons_of_mem _ hpr) h2)
    · obtain ⟨v, hv⟩ := Option.isSome_iff_exists.mp
        (hcl (q, p) (by simp [List.zip_cons_cons]) hp)
      simp only [List.zip_cons_cons, throughputScan, hp, if_true, hv, List.filterMap_cons,
        List.foldl_cons]
      exact ih p (max a v) (fun pr hpr h2 => hcl pr (List.mem_cons_of_mem _ hpr) h2)

theorem lineOpsVals_nil_of_not_contains (line : List Char)
    (hg : pyContains line "ops/sec" = false) : lineOpsVals line = [] := by
  simp only [lineOpsVals]
  rw [List.filterMap_eq_nil_iff]
  intro pr hpr
  obtain ⟨x, y⟩ := pr
  have hy : y ∈ pySplit line := List.tail_subset _ (List.of_mem_zip hpr).2
  cases hc : pyContains y "ops/sec"
  · simp [hc]
  · exact absurd (pyContains_of_token line y "ops/sec" hy hc) (by simp [hg])

theorem thrUpdate_eq_of_clean (a : ℚ) (line : List Char)
    (hclean : cleanThroughputLine line = true) :
    thrUpdate a line = (lineOpsVals line).foldl max a := by
  cases hg : pyContains line "ops/sec"
  · rw [thrUpdate, hg, lineOpsVals_nil_of_not_contains line hg]
    simp
  · rw [thrUpdate, hg]
    simp only [if_true]
    simp only [lineOpsVals]
    cases hparts : pySplit line with
    | nil => rfl
    | cons p ps =>
      have h1 : throughputScan a none (p :: ps) = throughputScan a (some p) ps := rfl
      rw [h1]
      have h2 : (p :: ps).tail = ps := rfl
      rw [h2]
      refine throughputScan_eq ps p a ?_
      have h3 := cleanThroughputLine_spec line hclean
      rw [hparts] at h3
      simpa using h3

/-- C1 counterexample: on the line `"abc ops/sec 5 ops/sec"` the claimed
maximum over the float-valued predecessors of `ops/sec` tokens is `5.0`
(from the second `ops/sec` token), but the code's token loop hits
`float("abc")` first, the `ValueError` aborts the whole line, and the
extracted throughput stays `0.0`. -/
theorem throughput_claim_cex :
    (parse_performance_output "t" "abc ops/sec 5 ops/sec").throughput = 0 ∧
    claimThroughput "abc ops/sec 5 ops/sec" = 5 ∧
    (parse_performance_output "t" "abc ops/sec 5 ops/sec").throughput ≠
      claimThroughput "abc ops/sec 5 ops/sec" := by
  exact ⟨by decide, by decide, by decide⟩

/-- C1 (amended): for texts in which, on every line, each token
containing `ops/sec` that has a predecessor has a float-parseable
predecessor (so the token loop never aborts), the extracted throughput
equals the specification's maximum — over all lines and all such tokens
— of the predecessor's float value, `0.0` when nothing matches; in
particular the single-line text `"1234.5 ops/sec"` yields `1234.5`. -/
theorem throughput_max_of_clean (now output : String)
    (hclean : ∀ l ∈ splitLines output.data, cleanThroughputLine (stripWs l) = true) :
    (parse_performance_output now output).throughput = claimThroughput output := by
  rw [parse_performance_output, foldl_throughput, claimThroughput]
  have hgen : ∀ (lines : List (List Char)) (a : ℚ),
      (∀ l ∈ lines, cleanThroughputLine (stripWs l) = true) →
      lines.foldl (fun a l => thrUpdate a (stripWs l)) a =
        lines.foldl (fun a l => (lineOpsVals (stripWs l)).foldl max a) a := by
    intro lines
    induction lines with
    | nil => intro a _; rfl
    | cons l ls ih =>
      intro a hcl
      rw [List.foldl_cons, List.foldl_cons,
        thrUpdate_eq_of_clean a (stripWs l) (hcl l (List.mem_cons_self l ls))]
      exact ih _ (fun l2 hl2 => hcl l2 (List.mem_cons_of_mem l hl2))
  exact hgen (splitLines output.data) 0 hclean

theorem throughput_max_of_clean_witness :
    (parse_performance_output "t" "1234.5 ops/sec").throughput =
      claimThroughput "1234.5 ops/sec" ∧
    claimThroughput "1234.5 ops/sec" = 1234.5 :=
  ⟨throughput_max_of_clean "t" "1234.5 ops/sec" (by decide), by decide⟩

/-! ### Claim C7 (continued): per-field defaults for every input text -/

theorem throughputScan_id (parts : List (List Char)) :
    ∀ (q : List Char) (a : ℚ),
      ((q :: parts).zip parts).any
        (fun pr => pyContains pr.2 "ops/sec" && (pyFloat pr.1).isSome) = false →
      throughputScan a (some q) parts = a := by
  induction parts with
  | nil => intro q a _; rfl
  | cons p rest ih =>
    intro q a h
    simp only [List.zip_cons_cons, List.any_cons, Bool.or_eq_false_iff] at h
    obtain ⟨h1, h2⟩ := h
    cases hp : pyContains p "ops/sec"
    · simp only [throughputScan, hp, Bool.false_eq_true, if_false]
      exact ih p a h2
    · rw [hp] at h1
      simp only [Bool.true_and] at h1
      cases hq : pyFloat q with
      | none => simp only [throughputScan, hp, if_true, hq]
      | some v => rw [hq] at h1; simp at h1

theorem thrUpdate_id (a : ℚ) (line : List Char)
    (h : lineYieldsThroughput line = false) : thrUpdate a line = a := by
  simp only [lineYieldsThroughput] at h
  rw [thrUpdate]
  cases hg : pyContains line "ops/sec"
  · simp
  · rw [hg] at h
    simp only [Bool.true_and] at h
    simp only [if_true]
    cases hparts : pySplit line with
    | nil => rfl
    | cons p ps =>
      have h1 : throughputScan a none (p :: ps) = throughputScan a (some p) ps := rfl
      rw [h1]
      refine throughputScan_id ps p a ?_
      rw [hparts] at h
      simpa using h

theorem latUpdate_id (a : ℚ) (line : List Char)
    (h : lineYieldsLatency line = false) : latUpdate a line = a := by
  rw [latUpdate_eq]
  simp only [lineYieldsLatency] at h
  cases hc : latencyCandidate line with
  | none => rfl
  | some v => rw [hc] at h; simp at h

theorem memoryScan_id (parts : List (List Char)) :
    ∀ a : ℚ,
      parts.any
        (fun p => pyContains p "MB" && (pyFloat (removePair 'M' 'B' p)).isSome) = false →
      memoryScan a parts = a := by
  induction parts with
  | nil => intro a _; rfl
  | cons p rest ih =>
    intro a h
    simp only [List.any_cons, Bool.or_eq_false_iff] at h
    obtain ⟨h1, h2⟩ := h
    cases hp : pyContains p "MB"
    · simp only [memoryScan, hp, Bool.false_eq_true, if_false]
      exact ih a h2
    · rw [hp] at h1
      simp only [Bool.true_and] at h1
      cases hv : pyFloat (removePair 'M' 'B' p) with
      | none => simp only [memoryScan, hp, if_true, hv]
      | some v => rw [hv] at h1; simp at h1

theorem memUpdate_id (a : ℚ) (line : List Char)
    (h : lineYieldsMemory line = false) : memUpdate a line = a := by
  simp only [lineYieldsMemory] at h
  rw [memUpdate]
  cases hg : (pyContains line "Memory:" && pyContains line "MB")
  · simp
  · rw [hg] at h
    simp only [Bool.true_and] at h
    simp only [if_true]
    exact memoryScan_id (pySplit line) a h

theorem cacheUpdate_id (a : ℚ) (line : List Char)
    (h : lineYieldsCache line = false) : cacheUpdate a line = a := by
  simp only [lineYieldsCache] at h
  rw [cacheUpdate]
  cases hg : (pyContains line "Cache:" && pyContains line "%")
  · simp
  · rw [hg] at h
    simp only [Bool.true_and] at h
    simp only [if_true]
    cases ha : afterFirst "hit_ratio=".data line with
    | none => rfl
    | some tail =>
      have h2 : (pyFloat (beforeFirst "%".data (beforeFirst "hit_ratio=".data tail))).isSome
          = false := by
        rw [ha] at h
        exact h
      show (match pyFloat (beforeFirst "%".data (beforeFirst "hit_ratio=".data tail)) with
            | some v => v
            | none => a) = a
      cases hv : pyFloat (beforeFirst "%".data (beforeFirst "hit_ratio=".data tail)) with
      | none => rfl
      | some v => rw [hv] at h2; simp at h2

theorem successScan_id (line : List Char) (parts : List (List Char)) :
    ∀ cur : ℚ,
      parts.any
        (fun p => pyContains p "%" && pyContains (pyLower line) "success" &&
          (pyFloat (removeChar '%' p)).isSome) = false →
      successScan line cur parts = cur := by
  induction parts with
  | nil => intro cur _; rfl
  | cons p rest ih =>
    intro cur h
    simp only [List.any_cons, Bool.or_eq_false_iff] at h
    obtain ⟨h1, h2⟩ := h
    cases hc : (pyContains p "%" && pyContains (pyLower line) "success")
    · simp only [successScan, hc, Bool.false_eq_true, if_false]
      exact ih cur h2
    · rw [hc] at h1
      simp only [Bool.true_and] at h1
      cases hv : pyFloat (removeChar '%' p) with
      | none => simp only [successScan, hc, if_true, hv]
      | some v => rw [hv] at h1; simp at h1

theorem successUpdate_id (a : ℚ) (line : List Char)
    (h : lineYieldsSuccess line = false) : successUpdate a line = a := by
  simp only [lineYieldsSuccess] at h
  rw [successUpdate]
  cases hg : (pyContains (pyLower line) "success" && pyContains line "%")
  · simp
  · rw [hg] at h
    simp only [Bool.true_and] at h
    simp only [if_true]
    exact successScan_id line (pySplit line) a h

theorem passedUpdate_id (a : ℤ) (line : List Char)
    (h : lineYieldsPassed line = false) : passedUpdate a line = a := by
  simp only [lineYieldsPassed] at h
  rw [passedUpdate]
  cases hg : pyContains line "Passing Tests:"
  · simp
  · rw [hg] at h
    simp only [Bool.true_and] at h
    simp only [if_true]
    cases ha : afterFirst ":".data line with
    | none => rfl
    | some tail =>
      have h2 : (pyInt (stripWs (beforeFirst ":".data tail))).isSome = false := by
        rw [ha] at h
        exact h
      show (match pyInt (stripWs (beforeFirst ":".data tail)) with
            | some v => v
            | none => a) = a
      cases hv : pyInt (stripWs (beforeFirst ":".data tail)) with
      | none => rfl
      | some v => rw [hv] at h2; simp at h2

theorem totalUpdate_id (a : ℤ) (line : List Char)
    (h : lineYieldsTotal line = false) : totalUpdate a line = a := by
  simp only [lineYieldsTotal] at h
  rw [totalUpdate]
  cases hg : pyContains line "Total Tests:"
  · simp
  · rw [hg] at h
    simp only [Bool.true_and] at h
    simp only [if_true]
    cases ha : afterFirst ":".data line with
    | none => rfl
    | some tail =>
      have h2 : (pyInt (stripWs (beforeFirst ":".data tail))).isSome = false := by
        rw [ha] at h
        exact h
      show (match pyInt (stripWs (beforeFirst ":".data tail)) with
            | some v => v
            | none => a) = a
      cases hv : pyInt (stripWs (beforeFirst ":".data tail)) with
      | none => rfl
      | some v => rw [hv] at h2; simp at h2

theorem foldl_update_id {α : Type} (u : α → List Char → α) (P : List Char → Bool)
    (hu : ∀ (a : α) (line : List Char), P line = false → u a line = a)
    (lines : List (List Char)) :
    ∀ a : α, (∀ l ∈ lines, P (stripWs l) = false) →
      lines.foldl (fun a l => u a (stripWs l)) a = a := by
  induction lines with
  | nil => intro a _; rfl
  | cons l ls ih =>
    intro a h
    rw [List.foldl_cons, hu a (stripWs l) (h l (List.mem_cons_self l ls))]
    exact ih a (fun l2 hl2 => h l2 (List.mem_cons_of_mem l hl2))

/-- C7: extraction is total and never raises — for every wall clock and
every input text (empty, malformed or type-mismatched included) it
yields a complete record whose `timestamp` is the wall clock; each field
for which no line has a successful (matched and parseable) candidate
keeps its default (`latency_p95` unconditionally, the other fields under
their per-field no-successful-match condition); and on a text where
every marker fires but every candidate number is malformed
(`malformedSample`) each parse failure is swallowed and every field
keeps its default. -/
theorem parse_total_and_defaults (now output : String) :
    (parse_performance_output now output).timestamp = now ∧
    ((∀ l ∈ splitLines output.data, lineYieldsThroughput (stripWs l) = false) →
      (parse_performance_output now output).throughput = 0) ∧
    ((∀ l ∈ splitLines output.data, lineYieldsLatency (stripWs l) = false) →
      (parse_performance_output now output).latency_avg = 0) ∧
    (parse_performance_output now output).latency_p95 = 0 ∧
    ((∀ l ∈ splitLines output.data, lineYieldsMemory (stripWs l) = false) →
      (parse_performance_output now output).memory_usage = 0) ∧
    ((∀ l ∈ splitLines output.data, lineYieldsCache (stripWs l) = false) →
      (parse_performance_output now output).cache_hit_ratio = 0) ∧
    ((∀ l ∈ splitLines output.data, lineYieldsSuccess (stripWs l) = false) →
      (parse_performance_output now output).success_rate = 0) ∧
    ((∀ l ∈ splitLines output.data, lineYieldsPassed (stripWs l) = false) →
      (parse_performance_output now output).tests_passed = 0) ∧
    ((∀ l ∈ splitLines output.data, lineYieldsTotal (stripWs l) = false) →
      (parse_performance_output now output).tests_total = 0) ∧
    parse_performance_output now malformedSample = initMetrics now := by
  refine ⟨?_, ?_, ?_, ?_, ?_, ?_, ?_, ?_, ?_, ?_⟩
  · rw [parse_performance_output, foldl_timestamp]
    rfl
  · intro h
    rw [parse_performance_output, foldl_throughput]
    exact foldl_update_id thrUpdate lineYieldsThroughput thrUpdate_id _ _ h
  · intro h
    rw [parse_performance_output, foldl_latency_avg]
    exact foldl_update_id latUpdate lineYieldsLatency latUpdate_id _ _ h
  · rw [parse_performance_output, foldl_latency_p95]
    rfl
  · intro h
    rw [parse_performance_output, foldl_memory_usage]
    exact foldl_update_id memUpdate lineYieldsMemory memUpdate_id _ _ h
  · intro h
    rw [parse_performance_output, foldl_cache_hit_ratio]
    exact foldl_update_id cacheUpdate lineYieldsCache cacheUpdate_id _ _ h
  · intro h
    rw [parse_performance_output, foldl_success_rate]
    exact foldl_update_id successUpdate lineYieldsSuccess successUpdate_id _ _ h
  · intro h
    rw [parse_performance_output, foldl_tests_passed]
    exact foldl_update_id passedUpdate lineYieldsPassed passedUpdate_id _ _ h
  · intro h
    rw [parse_performance_output, foldl_tests_total]
    exact foldl_update_id totalUpdate lineYieldsTotal totalUpdate_id _ _ h
  · apply Metrics.ext
    · rw [parse_performance_output, foldl_timestamp]
    · rw [parse_performance_output, foldl_throughput]
      simp only [initMetrics]
      decide
    · rw [parse_performance_output, foldl_latency_avg]
      simp only [initMetrics]
      decide
    · rw [parse_performance_output, foldl_latency_p95]
    · rw [parse_performance_output, foldl_memory_usage]
      simp only [initMetrics]
      decide
    · rw [parse_performance_output, foldl_cache_hit_ratio]
      simp only [initMetrics]
      decide
    · rw [parse_performance_output, foldl_success_rate]
      simp only [initMetrics]
      decide
    · rw [parse_performance_output, foldl_tests_passed]
      simp only [initMetrics]
      decide
    · rw [parse_performance_output, foldl_tests_total]
      simp only [initMetrics]
      decide

theorem parse_total_and_defaults_witness :
    (parse_performance_output "t" "1234.5 ops/sec").timestamp = "t" ∧
    (parse_performance_output "t" "1234.5 ops/sec").latency_avg = 0 ∧
    (parse_performance_output "t" "1234.5 ops/sec").latency_p95 = 0 ∧
    (parse_performance_output "t" "1234.5 ops/sec").memory_usage = 0 ∧
    (parse_performance_output "t" "1234.5 ops/sec").cache_hit_ratio = 0 ∧
    (parse_performance_output "t" "1234.5 ops/sec").success_rate = 0 ∧
    (parse_performance_output "t" "1234.5 ops/sec").tests_passed = 0 ∧
    (parse_performance_output "t" "1234.5 ops/sec").tests_total = 0 ∧
    (parse_performance_output "t" "hello\nworld").throughput = 0 ∧
    parse_performance_output "t" malformedSample = initMetrics "t" :=
  ⟨(parse_total_and_defaults "t" "1234.5 ops/sec").1,
   (parse_total_and_defaults "t" "1234.5 ops/sec").2.2.1 (by decide),
   (parse_total_and_defaults "t" "1234.5 ops/sec").2.2.2.1,
   (parse_total_and_defaults "t" "1234.5 ops/sec").2.2.2.2.1 (by decide),
   (parse_total_and_defaults "t" "1234.5 ops/sec").2.2.2.2.2.1 (by decide),
   (parse_total_and_defaults "t" "1234.5 ops/sec").2.2.2.2.2.2.1 (by decide),
   (parse_total_and_defaults "t" "1234.5 ops/sec").2.2.2.2.2.2.2.1 (by decide),
   (parse_total_and_defaults "t" "1234.5 ops/sec").2.2.2.2.2.2.2.2.1 (by decide),
   (parse_total_and_defaults "t" "hello\nworld").2.1 (by decide),
   (parse_total_and_defaults "t" "1234.5 ops/sec").2.2.2.2.2.2.2.2.2⟩
